import Mathlib

/-!
Shallow embedding of the Pi price oracle's aggregation core
(`PriceAggregator` in `src/services/aggregator.ts`, the cache service in
`src/services/cache.ts`, and the `PriceSource` base class in
`src/types.ts`).  Numeric values are modelled as rationals; the only
irrational operation in the source, `Math.sqrt` inside the confidence
score, is modelled with `Real.sqrt`.  Timestamps are modelled as
rationals (milliseconds-style linear time).
-/

namespace Oracle

/-- Mirror of the `PriceData` interface: one source's observation. -/
structure PriceData where
  price : ℚ
  timestamp : ℚ
  source : String
  weight : Option ℚ
  deriving DecidableEq, Repr

/-- Mirror of the `SourcePriceDetail` interface. -/
structure SourcePriceDetail where
  price : ℚ
  weight : ℚ
  timestamp : ℚ
  deriving DecidableEq, Repr

/-- Mirror of the `AggregatedPrice` interface.  `confidence_score` is a real
number because its computation involves `Math.sqrt`. -/
structure AggregatedPrice where
  symbol : String
  price_usd : ℚ
  timestamp : ℚ
  sources_used : ℕ
  total_sources : ℕ
  aggregation_method : String
  source_prices : List (String × SourcePriceDetail)
  confidence_score : ℝ
  cache_hit : Bool

/-- Mirror of `PriceOracleError` as thrown by `getAggregatedPrice` for the
insufficient-sources condition, carrying the counts interpolated into the
message string. -/
inductive OracleError where
  | insufficientSources (got required : ℕ)
  deriving DecidableEq, Repr

/-- The configuration fields of `config` consumed by the aggregator. -/
structure Config where
  minSourcesRequired : ℕ
  outlierThresholdPercent : ℚ
  cacheTTL : ℚ
  deriving Repr

/-- Effective weight of a quote: the source computes
`priceData.weight || 1.0`, so an absent weight, and also a zero weight
(falsy in JavaScript), default to 1. -/
def effWeight (p : PriceData) : ℚ :=
  match p.weight with
  | none => 1
  | some w => if w = 0 then 1 else w

/-- JavaScript object-assignment semantics for `sourcePrices[key] = v`: an
existing key keeps its insertion position and gets the new value, a new key
is appended. -/
def setDetail (m : List (String × SourcePriceDetail)) (k : String)
    (v : SourcePriceDetail) : List (String × SourcePriceDetail) :=
  match m with
  | [] => [(k, v)]
  | (k', v') :: rest => if k' = k then (k, v) :: rest else (k', v') :: setDetail rest k v

/-- Accumulated `totalWeight` of the loop in `calculateAggregatedPrice`. -/
def totalWeight (prices : List PriceData) : ℚ :=
  List.foldl (fun s p => s + effWeight p) 0 prices

/-- Accumulated `weightedSum` of the loop in `calculateAggregatedPrice`. -/
def weightedSum (prices : List PriceData) : ℚ :=
  List.foldl (fun s p => s + p.price * effWeight p) 0 prices

/-- Accumulated `sourcePrices` record of the loop in
`calculateAggregatedPrice`. -/
def sourcePricesOf (prices : List PriceData) : List (String × SourcePriceDetail) :=
  List.foldl (fun m p => setDetail m p.source ⟨p.price, effWeight p, p.timestamp⟩) [] prices

/-- Mirror of `calculateAggregatedPrice(prices, cacheHit)`.  `T` is
`this.sources.length` and `now` the timestamp taken by `new Date()`. -/
noncomputable def calculateAggregatedPrice (T : ℕ) (prices : List PriceData)
    (now : ℚ) (cacheHit : Bool) : AggregatedPrice :=
  let aggregatedPrice : ℚ := weightedSum prices / totalWeight prices
  let sourceShare : ℚ := min ((prices.length : ℚ) / (T : ℚ)) 1
  let mean : ℚ := (List.foldl (fun s p => s + p.price) 0 prices) / (prices.length : ℚ)
  let variance : ℚ :=
    (List.foldl (fun s p => s + (p.price - mean) ^ 2) 0 prices) / (prices.length : ℚ)
  let stdDev : ℝ := Real.sqrt (variance : ℝ)
  let cv : ℝ := stdDev / (mean : ℝ)
  let consistencyScore : ℝ := max 0 (1 - cv * 10)
  let confidenceScore : ℝ := (sourceShare : ℝ) * 0.6 + consistencyScore * 0.4
  { symbol := "PI"
    price_usd := aggregatedPrice
    timestamp := now
    sources_used := prices.length
    total_sources := T
    aggregation_method := "weighted_average"
    source_prices := sourcePricesOf prices
    confidence_score := confidenceScore
    cache_hit := cacheHit }

/-- Ascending-by-price comparison used by
`[...prices].sort((a, b) => a.price - b.price)`. -/
def priceLE (a b : PriceData) : Prop := a.price ≤ b.price

instance : DecidableRel priceLE := fun a b => inferInstanceAs (Decidable (a.price ≤ b.price))

instance : IsTotal PriceData priceLE := ⟨fun a b => le_total a.price b.price⟩

instance : IsTrans PriceData priceLE := ⟨fun _ _ _ => le_trans⟩

/-- Stable ascending sort of the quotes by price (the observable behaviour of
`Array.prototype.sort` with the comparator `a.price - b.price`). -/
def sortByPrice (l : List PriceData) : List PriceData :=
  List.insertionSort priceLE l

/-- The `median` taken in `removeOutliers`: the price of the element at index
`Math.floor(length / 2)` of the sorted copy. -/
def medianPrice (l : List PriceData) : ℚ :=
  ((sortByPrice l).getD (l.length / 2) ⟨0, 0, "", none⟩).price

/-- Mirror of `removeOutliers(prices)`. -/
def removeOutliers (cfg : Config) (prices : List PriceData) : List PriceData :=
  if prices.length < 3 then prices
  else
    let median := medianPrice prices
    let threshold := (cfg.outlierThresholdPercent / 100) * median
    prices.filter (fun p => decide (|p.price - median| ≤ threshold))

/-- The result-cache slot: the stored `AggregatedPrice` together with its
expiry instant (`node-cache` stores `now + ttl`). -/
def CacheSlot : Type := Option (AggregatedPrice × ℚ)

/-- Mirror of `cacheService.get`: a stored entry is returned while it has not
expired, otherwise the read is a miss. -/
def cacheGet (cache : CacheSlot) (now : ℚ) : Option AggregatedPrice :=
  match cache with
  | none => none
  | some (v, expiry) => if now ≤ expiry then some v else none

/-- Outcome of one `getAggregatedPrice` call: the returned value or error,
the cache slot after the call, and whether the degraded-mode
`Too many outliers detected` warning was logged. -/
structure AggOutcome where
  res : Except OracleError AggregatedPrice
  cache : CacheSlot
  warned : Bool

/-- Mirror of `PriceAggregator.getAggregatedPrice`.  The network fan-out is
abstracted by `prices`, the list of successfully fetched quotes delivered by
`fetchAllPrices` (in source registration order); `T` is the number of
registered sources and `now` the current instant. -/
noncomputable def getAggregatedPrice (cfg : Config) (T : ℕ) (cache : CacheSlot)
    (now : ℚ) (prices : List PriceData) : AggOutcome :=
  match cacheGet cache now with
  | some cached => ⟨.ok { cached with cache_hit := true }, cache, false⟩
  | none =>
    if prices.length < cfg.minSourcesRequired then
      ⟨.error (.insufficientSources prices.length cfg.minSourcesRequired), cache, false⟩
    else
      let filteredPrices := removeOutliers cfg prices
      if filteredPrices.length < cfg.minSourcesRequired then
        ⟨.ok (calculateAggregatedPrice T prices now false), cache, true⟩
      else
        let result := calculateAggregatedPrice T filteredPrices now false
        ⟨.ok result, some (result, now + cfg.cacheTTL), false⟩

/-- Mirror of the mutable health state of the abstract `PriceSource` class. -/
structure SourceHealth where
  successCount : ℕ
  errorCount : ℕ
  lastSuccess : Option ℚ
  lastError : Option String
  responseTimes : List ℚ
  deriving DecidableEq, Repr

/-- The state established by the `PriceSource` constructor. -/
def initialHealth : SourceHealth :=
  { successCount := 0
    errorCount := 0
    lastSuccess := none
    lastError := none
    responseTimes := [] }

/-- Mirror of `PriceSource.recordSuccess(responseTime)`: push the latency,
then drop the oldest entry when more than 100 are held. -/
def recordSuccess (s : SourceHealth) (now responseTime : ℚ) : SourceHealth :=
  let pushed := s.responseTimes ++ [responseTime]
  { s with
    successCount := s.successCount + 1
    lastSuccess := some now
    responseTimes := if pushed.length > 100 then pushed.tail else pushed }

/-- Mirror of `PriceSource.recordError(error)`. -/
def recordError (s : SourceHealth) (error : String) : SourceHealth :=
  { s with errorCount := s.errorCount + 1, lastError := some error }

/-- Mirror of the `status` field of `SourceStatus`. -/
inductive SourceStatusKind where
  | active
  | error
  | disabled
  deriving DecidableEq, Repr

/-- Mirror of the `SourceStatus` interface. -/
structure SourceStatus where
  name : String
  status : SourceStatusKind
  last_success : Option ℚ
  last_error : Option String
  success_rate : ℚ
  avg_response_time_ms : ℚ
  deriving DecidableEq, Repr

/-- Mirror of `PriceSource.getStatus()`. -/
def getStatus (name : String) (s : SourceHealth) : SourceStatus :=
  let totalRequests := s.successCount + s.errorCount
  let successRate : ℚ := if 0 < totalRequests then (s.successCount : ℚ) / (totalRequests : ℚ) else 0
  let avgResponseTime : ℚ :=
    if 0 < s.responseTimes.length then
      (List.foldl (fun a b => a + b) 0 s.responseTimes) / (s.responseTimes.length : ℚ)
    else 0
  { name := name
    status := if s.errorCount = 0 ∨ 0 < s.successCount then .active else .error
    last_success := s.lastSuccess
    last_error := s.lastError
    success_rate := successRate
    avg_response_time_ms := avgResponseTime }

/-- Smallest price of a quote list (spec-side notion for the convexity
property; `0` for the empty list, which is outside the averager's domain). -/
def minPrice : List PriceData → ℚ
  | [] => 0
  | p :: rest => List.foldl (fun m q => min m q.price) p.price rest

/-- Largest price of a quote list (spec-side notion). -/
def maxPrice : List PriceData → ℚ
  | [] => 0
  | p :: rest => List.foldl (fun m q => max m q.price) p.price rest

/-- Spec-side mean of the quoted prices. -/
def specMean (l : List PriceData) : ℚ := ((l.map PriceData.price).sum) / (l.length : ℚ)

/-- Spec-side population standard deviation of the quoted prices. -/
noncomputable def specPopStdDev (l : List PriceData) : ℝ :=
  Real.sqrt (((((l.map (fun p => (p.price - specMean l) ^ 2)).sum) / (l.length : ℚ) : ℚ) : ℝ))

/-- Positivity discipline on a quote's declared weight: either absent or
strictly positive (§3 of the design: weight defaults to 1.0, never 0 or
negative). -/
def WeightOk (p : PriceData) : Prop :=
  match p.weight with
  | none => True
  | some w => 0 < w

/-- Whether an aggregation call ended in the insufficient-sources failure. -/
def failed (o : AggOutcome) : Bool :=
  match o.res with
  | .error _ => true
  | .ok _ => false

section Helpers

lemma foldl_add_map (f : PriceData → ℚ) :
    ∀ (l : List PriceData) (a : ℚ),
      List.foldl (fun s p => s + f p) a l = a + (l.map f).sum
  | [], a => by simp
  | p :: l, a => by
    simp [foldl_add_map f l (a + f p), add_assoc]

lemma totalWeight_eq (l : List PriceData) : totalWeight l = (l.map effWeight).sum := by
  simpa using foldl_add_map effWeight l 0

lemma weightedSum_eq (l : List PriceData) :
    weightedSum l = (l.map (fun p => p.price * effWeight p)).sum := by
  simpa using foldl_add_map (fun p => p.price * effWeight p) l 0

lemma effWeight_pos (p : PriceData) (h : WeightOk p) : 0 < effWeight p := by
  rcases p with ⟨price, ts, src, w⟩
  cases w with
  | none => exact one_pos
  | some w =>
    have hw : 0 < w := h
    have hne : ¬ w = 0 := ne_of_gt hw
    simpa [effWeight, hne] using hw

lemma totalWeight_pos (l : List PriceData) (hne : l ≠ [])
    (hw : ∀ p ∈ l, WeightOk p) : 0 < totalWeight l := by
  rw [totalWeight_eq]
  apply List.sum_pos
  · intro x hx
    rcases List.mem_map.mp hx with ⟨p, hp, rfl⟩
    exact effWeight_pos p (hw p hp)
  · simpa using hne

lemma foldl_min_le_acc :
    ∀ (l : List PriceData) (a : ℚ), List.foldl (fun m q => min m q.price) a l ≤ a
  | [], a => le_refl a
  | p :: l, a => le_trans (foldl_min_le_acc l (min a p.price)) (min_le_left _ _)

lemma foldl_min_le_of_mem {p : PriceData} :
    ∀ (l : List PriceData) (a : ℚ), p ∈ l →
      List.foldl (fun m q => min m q.price) a l ≤ p.price
  | q :: l, a, hp => by
    rcases List.mem_cons.mp hp with heq | htail
    · subst heq
      exact le_trans (foldl_min_le_acc l (min a p.price)) (min_le_right _ _)
    · exact foldl_min_le_of_mem l (min a q.price) htail

lemma minPrice_le {p : PriceData} {l : List PriceData} (hp : p ∈ l) :
    minPrice l ≤ p.price := by
  cases l with
  | nil => cases hp
  | cons q rest =>
    rcases List.mem_cons.mp hp with heq | htail
    · subst heq
      exact foldl_min_le_acc rest p.price
    · exact foldl_min_le_of_mem rest q.price htail

lemma acc_le_foldl_max :
    ∀ (l : List PriceData) (a : ℚ), a ≤ List.foldl (fun m q => max m q.price) a l
  | [], a => le_refl a
  | p :: l, a => le_trans (le_max_left _ _) (acc_le_foldl_max l (max a p.price))

lemma le_foldl_max_of_mem {p : PriceData} :
    ∀ (l : List PriceData) (a : ℚ), p ∈ l →
      p.price ≤ List.foldl (fun m q => max m q.price) a l
  | q :: l, a, hp => by
    rcases List.mem_cons.mp hp with heq | htail
    · subst heq
      exact le_trans (le_max_right _ _) (acc_le_foldl_max l (max a p.price))
    · exact le_foldl_max_of_mem l (max a q.price) htail

lemma le_maxPrice {p : PriceData} {l : List PriceData} (hp : p ∈ l) :
    p.price ≤ maxPrice l := by
  cases l with
  | nil => cases hp
  | cons q rest =>
    rcases List.mem_cons.mp hp with heq | htail
    · subst heq
      exact acc_le_foldl_max rest p.price
    · exact le_foldl_max_of_mem rest q.price htail

lemma length_removeOutliers_le (cfg : Config) (l : List PriceData) :
    (removeOutliers cfg l).length ≤ l.length := by
  unfold removeOutliers
  split
  · exact le_refl _
  · exact List.length_filter_le _ _

lemma recordSuccess_length_le {s : SourceHealth} (now rt : ℚ)
    (h : s.responseTimes.length ≤ 100) :
    (recordSuccess s now rt).responseTimes.length ≤ 100 := by
  unfold recordSuccess
  simp only
  split
  · next hgt =>
    simp only [List.length_tail, List.length_append, List.length_cons, List.length_nil]
    omega
  · next hle =>
    simp only [List.length_append, List.length_cons, List.length_nil] at hle ⊢
    omega

lemma foldl_recordSuccess_length (ops : List (ℚ × ℚ)) :
    ∀ (s : SourceHealth), s.responseTimes.length ≤ 100 →
      (List.foldl (fun st x => recordSuccess st x.1 x.2) s ops).responseTimes.length ≤ 100 := by
  induction ops with
  | nil => intro s h; exact h
  | cons op rest ih =>
    intro s h
    exact ih _ (recordSuccess_length_le op.1 op.2 h)

end Helpers

section ConcreteInputs

/-- A configuration demanding three sources, 10% outlier threshold, 30s TTL
(the repository defaults with MIN_SOURCES_REQUIRED=3). -/
def cfg0 : Config := ⟨3, 10, 30⟩

/-- Three quotes of which one (price 100) is a gross outlier; with `cfg0` the
filter keeps only two quotes, below the 3-source minimum. -/
def cexPrices : List PriceData :=
  [⟨1, 0, "a", none⟩, ⟨1, 0, "b", none⟩, ⟨100, 0, "c", none⟩]

/-- Two quotes: below the three-quote minimum for outlier filtering. -/
def twoQ : List PriceData := [⟨6/5, 0, "a", none⟩, ⟨61/50, 0, "b", none⟩]

/-- The spec's scenario 1: quotes 1.20, 1.22, 1.25, none filtered at 10%. -/
def goodPrices : List PriceData :=
  [⟨6/5, 0, "a", none⟩, ⟨61/50, 0, "b", none⟩, ⟨5/4, 0, "c", none⟩]

/-- Scenario-1 quotes with explicit positive weights. -/
def wPrices : List PriceData :=
  [⟨6/5, 0, "coingecko", some (3/2)⟩, ⟨61/50, 0, "bitget", some 2⟩, ⟨5/4, 0, "okx", some 2⟩]

/-- Three identical quotes (zero variance). -/
def threeSame : List PriceData :=
  [⟨2, 0, "a", none⟩, ⟨2, 0, "b", none⟩, ⟨2, 0, "c", none⟩]

/-- A source-health state whose latency buffer is full. -/
def fullHealth : SourceHealth :=
  { initialHealth with responseTimes := List.replicate 100 1 }

end ConcreteInputs

/-- C3: for every quote list Q, if it has fewer than three quotes the outlier
filter returns it unchanged; otherwise the sorted copy is an ascending-by-price
permutation of Q, the filter keeps exactly the quotes whose absolute deviation
from the median (the price at index floor(n/2) of that sort) is at most
(outlierThresholdPercent/100) * median, and hence no returned quote deviates
from the median by more than that threshold. -/
theorem C3_outlier_filter (cfg : Config) (Q : List PriceData) :
    (Q.length < 3 → removeOutliers cfg Q = Q) ∧
    (3 ≤ Q.length →
      (sortByPrice Q).Perm Q ∧
      List.Sorted priceLE (sortByPrice Q) ∧
      removeOutliers cfg Q = Q.filter (fun p =>
        decide (|p.price - medianPrice Q| ≤
          (cfg.outlierThresholdPercent / 100) * medianPrice Q)) ∧
      ∀ p ∈ removeOutliers cfg Q,
        |p.price - medianPrice Q| ≤ (cfg.outlierThresholdPercent / 100) * medianPrice Q) := by
  constructor
  · intro h
    simp [removeOutliers, h]
  · intro h3
    have hnot : ¬ Q.length < 3 := not_lt.mpr h3
    have hfe : removeOutliers cfg Q = Q.filter (fun p =>
        decide (|p.price - medianPrice Q| ≤
          (cfg.outlierThresholdPercent / 100) * medianPrice Q)) := by
      simp [removeOutliers, hnot]
    refine ⟨List.perm_insertionSort priceLE Q, List.sorted_insertionSort priceLE Q, hfe, ?_⟩
    intro p hp
    rw [hfe] at hp
    exact of_decide_eq_true (List.mem_filter.mp hp).2

/-- Witness for C3 at the concrete inputs `twoQ` (returned unchanged) and
`cexPrices` (filtered against the median). -/
theorem C3_outlier_filter_witness :
    removeOutliers cfg0 twoQ = twoQ ∧
    removeOutliers cfg0 cexPrices = cexPrices.filter (fun p =>
      decide (|p.price - medianPrice cexPrices| ≤
        (cfg0.outlierThresholdPercent / 100) * medianPrice cexPrices)) :=
  ⟨(C3_outlier_filter cfg0 twoQ).1 (by decide),
   ((C3_outlier_filter cfg0 cexPrices).2 (by decide)).2.2.1⟩

/-- C8: for every non-empty quote list whose weights are each positive or
unset, every effective weight is strictly positive and so is their sum, the
divisor of the weighted average. -/
theorem C8_divisor_positive (prices : List PriceData) (hne : prices ≠ [])
    (hw : ∀ p ∈ prices, WeightOk p) :
    0 < totalWeight prices ∧ ∀ p ∈ prices, 0 < effWeight p :=
  ⟨totalWeight_pos prices hne hw, fun p hp => effWeight_pos p (hw p hp)⟩

/-- Witness for C8 at the concrete weighted quotes `wPrices`. -/
theorem C8_divisor_positive_witness :
    wPrices ≠ [] ∧ 0 < totalWeight wPrices :=
  ⟨List.cons_ne_nil _ _,
   (C8_divisor_positive wPrices (List.cons_ne_nil _ _) (by
      intro p hp
      simp only [wPrices, List.mem_cons, List.not_mem_nil, or_false] at hp
      rcases hp with rfl | rfl | rfl
      · exact (by norm_num : (0:ℚ) < 3/2)
      · exact (by norm_num : (0:ℚ) < 2)
      · exact (by norm_num : (0:ℚ) < 2))).1⟩

/-- C7: for every non-empty quote list with positive-or-unset weights, the
weighted average price computed by `calculateAggregatedPrice` lies between the
smallest and the largest quoted price (convexity). -/
theorem C7_convexity (T : ℕ) (prices : List PriceData) (now : ℚ) (cacheHit : Bool)
    (hne : prices ≠ []) (hw : ∀ p ∈ prices, WeightOk p) :
    minPrice prices ≤ (calculateAggregatedPrice T prices now cacheHit).price_usd ∧
    (calculateAggregatedPrice T prices now cacheHit).price_usd ≤ maxPrice prices := by
  have hW : 0 < totalWeight prices := totalWeight_pos prices hne hw
  have hprice : (calculateAggregatedPrice T prices now cacheHit).price_usd =
      weightedSum prices / totalWeight prices := by
    simp [calculateAggregatedPrice]
  have hlow : minPrice prices * totalWeight prices ≤ weightedSum prices := by
    rw [totalWeight_eq, weightedSum_eq, ← List.sum_map_mul_left]
    exact List.sum_le_sum (fun p hp =>
      mul_le_mul_of_nonneg_right (minPrice_le hp) (le_of_lt (effWeight_pos p (hw p hp))))
  have hhigh : weightedSum prices ≤ maxPrice prices * totalWeight prices := by
    rw [totalWeight_eq, weightedSum_eq, ← List.sum_map_mul_left]
    exact List.sum_le_sum (fun p hp =>
      mul_le_mul_of_nonneg_right (le_maxPrice hp) (le_of_lt (effWeight_pos p (hw p hp))))
  rw [hprice]
  constructor
  · rw [le_div_iff₀ hW]
    exact hlow
  · rw [div_le_iff₀ hW]
    exact hhigh

/-- Witness for C7 at the concrete weighted quotes `wPrices`. -/
theorem C7_convexity_witness :
    minPrice wPrices ≤ (calculateAggregatedPrice 3 wPrices 0 false).price_usd ∧
    (calculateAggregatedPrice 3 wPrices 0 false).price_usd ≤ maxPrice wPrices :=
  C7_convexity 3 wPrices 0 false (List.cons_ne_nil _ _) (by
    intro p hp
    simp only [wPrices, List.mem_cons, List.not_mem_nil, or_false] at hp
    rcases hp with rfl | rfl | rfl
    · exact (by norm_num : (0:ℚ) < 3/2)
    · exact (by norm_num : (0:ℚ) < 2)
    · exact (by norm_num : (0:ℚ) < 2))

/-- C9: the latency buffer is a bounded ring of capacity 100: any sequence of
`recordSuccess` operations from the initial state leaves at most 100 entries,
and recording into a full buffer evicts exactly the oldest entry. -/
theorem C9_ring_buffer (ops : List (ℚ × ℚ)) (s : SourceHealth) (now rt : ℚ)
    (h100 : s.responseTimes.length = 100) :
    (List.foldl (fun st x => recordSuccess st x.1 x.2) initialHealth ops).responseTimes.length
      ≤ 100 ∧
    (recordSuccess s now rt).responseTimes = s.responseTimes.tail ++ [rt] := by
  constructor
  · exact foldl_recordSuccess_length ops initialHealth (by simp [initialHealth])
  · unfold recordSuccess
    simp only
    have hgt : (s.responseTimes ++ [rt]).length > 100 := by
      simp [h100]
    rw [if_pos hgt]
    cases hrt : s.responseTimes with
    | nil =>
      rw [hrt] at h100
      simp at h100
    | cons a as => simp

/-- Witness for C9 at a concretely full buffer. -/
theorem C9_ring_buffer_witness :
    fullHealth.responseTimes.length = 100 ∧
    (recordSuccess fullHealth 0 7).responseTimes = fullHealth.responseTimes.tail ++ [7] :=
  ⟨by simp [fullHealth, initialHealth],
   (C9_ring_buffer [] fullHealth 0 7 (by simp [fullHealth, initialHealth])).2⟩

/-- C10: `getStatus` reports status error exactly when at least one error and
zero successes were recorded (so, in particular, only then), and a freshly
constructed source reports active status, zero success rate and zero average
response time. -/
theorem C10_status (name : String) (s : SourceHealth) :
    ((getStatus name s).status = SourceStatusKind.error ↔
      1 ≤ s.errorCount ∧ s.successCount = 0) ∧
    (getStatus name initialHealth).status = SourceStatusKind.active ∧
    (getStatus name initialHealth).success_rate = 0 ∧
    (getStatus name initialHealth).avg_response_time_ms = 0 := by
  refine ⟨?_, rfl, rfl, rfl⟩
  simp only [getStatus]
  split_ifs with h
  · simp only [reduceCtorEq, false_iff]
    omega
  · push_neg at h
    simp only [true_iff]
    omega

/-- C2: on a cache miss the call fails exactly when the successful quote set
has fewer than minSourcesRequired elements; this condition is equivalent to
both the unfiltered and the filtered set being below the minimum (filtering
never adds quotes); and a failing call reports the insufficient-sources error
and leaves the result-cache slot unchanged. -/
theorem C2_insufficient_sources (cfg : Config) (T : ℕ) (cache : CacheSlot) (now : ℚ)
    (prices : List PriceData) (hmiss : cacheGet cache now = none) :
    (failed (getAggregatedPrice cfg T cache now prices) = true ↔
      prices.length < cfg.minSourcesRequired) ∧
    (prices.length < cfg.minSourcesRequired →
      (getAggregatedPrice cfg T cache now prices).res =
        Except.error (.insufficientSources prices.length cfg.minSourcesRequired) ∧
      (getAggregatedPrice cfg T cache now prices).cache = cache) ∧
    (prices.length < cfg.minSourcesRequired ↔
      (prices.length < cfg.minSourcesRequired ∧
        (removeOutliers cfg prices).length < cfg.minSourcesRequired)) := by
  have hlen := length_removeOutliers_le cfg prices
  refine ⟨?_, ?_, ⟨fun h => ⟨h, lt_of_le_of_lt hlen h⟩, fun h => h.1⟩⟩
  · by_cases hlt : prices.length < cfg.minSourcesRequired
    · simp [getAggregatedPrice, hmiss, hlt, failed]
    · by_cases hf : (removeOutliers cfg prices).length < cfg.minSourcesRequired
      · simp [getAggregatedPrice, hmiss, hlt, hf, failed]
      · simp [getAggregatedPrice, hmiss, hlt, hf, failed]
  · intro hlt
    simp [getAggregatedPrice, hmiss, hlt]

/-- Witness for C2: with an empty cache and only two quotes against a
three-source minimum. -/
theorem C2_insufficient_sources_witness :
    cacheGet none 0 = none ∧
    (failed (getAggregatedPrice cfg0 3 none 0 twoQ) = true ↔
      twoQ.length < cfg0.minSourcesRequired) :=
  ⟨rfl, (C2_insufficient_sources cfg0 3 none 0 twoQ rfl).1⟩

/-- C4: on a cache miss, when the successful quote set meets the minimum but
the filtered set falls below it, the call does not fail: it returns the
result computed from the full unfiltered set, and the degraded-mode warning
is logged. -/
theorem C4_fallback (cfg : Config) (T : ℕ) (cache : CacheSlot) (now : ℚ)
    (prices : List PriceData) (hmiss : cacheGet cache now = none)
    (hQ : cfg.minSourcesRequired ≤ prices.length)
    (hF : (removeOutliers cfg prices).length < cfg.minSourcesRequired) :
    (getAggregatedPrice cfg T cache now prices).res =
      Except.ok (calculateAggregatedPrice T prices now false) ∧
    (getAggregatedPrice cfg T cache now prices).warned = true := by
  have hlt : ¬ prices.length < cfg.minSourcesRequired := not_lt.mpr hQ
  constructor <;> simp [getAggregatedPrice, hmiss, hlt, hF]

/-- Witness for C4 at the concrete outlier-heavy quotes `cexPrices`. -/
theorem C4_fallback_witness :
    cfg0.minSourcesRequired ≤ cexPrices.length ∧
    (removeOutliers cfg0 cexPrices).length < cfg0.minSourcesRequired ∧
    (getAggregatedPrice cfg0 3 none 0 cexPrices).res =
      Except.ok (calculateAggregatedPrice 3 cexPrices 0 false) ∧
    (getAggregatedPrice cfg0 3 none 0 cexPrices).warned = true := by
  have hF : (removeOutliers cfg0 cexPrices).length < cfg0.minSourcesRequired := by
    norm_num [removeOutliers, cexPrices, medianPrice, sortByPrice, List.insertionSort,
      List.orderedInsert, priceLE, cfg0]
  exact ⟨by decide, hF, C4_fallback cfg0 3 none 0 cexPrices rfl (by decide) hF⟩

/-- C1 counterexample: with an empty cache, `cfg0` and the quotes
`cexPrices`, the call returns an AggregationResult (through the degraded
fallback) with cache_hit = false, yet the result-cache slot is still empty
afterwards — the returned result was not stored, contradicting the claim
that every successfully returned result is stored in the Result Cache. -/
theorem C1_counterexample :
    (getAggregatedPrice cfg0 3 none 0 cexPrices).res =
      Except.ok (calculateAggregatedPrice 3 cexPrices 0 false) ∧
    (calculateAggregatedPrice 3 cexPrices 0 false).cache_hit = false ∧
    (getAggregatedPrice cfg0 3 none 0 cexPrices).cache = none := by
  have hF : (removeOutliers cfg0 cexPrices).length < cfg0.minSourcesRequired := by
    norm_num [removeOutliers, cexPrices, medianPrice, sortByPrice, List.insertionSort,
      List.orderedInsert, priceLE, cfg0]
  have hlt : ¬ cexPrices.length < cfg0.minSourcesRequired := by decide
  refine ⟨?_, rfl, ?_⟩ <;> simp [getAggregatedPrice, cacheGet, hlt, hF]

/-- C1 (amended): on a cache miss, when the filtered set still meets the
minimum, the freshly computed result is returned with cache_hit = false and
stored in the cache slot with the TTL expiry; a call that hits a cached
entry returns it with cache_hit = true and bit-identical price_usd and
source_prices, leaving the slot unchanged; a fresh result computed through
the degraded fallback is returned with cache_hit = false but not stored. -/
theorem C1_caching (cfg : Config) (T T2 : ℕ) (cache : CacheSlot) (now now2 expiry : ℚ)
    (prices prices2 : List PriceData) (r : AggregatedPrice)
    (hmiss : cacheGet cache now = none) :
    (cfg.minSourcesRequired ≤ prices.length →
      cfg.minSourcesRequired ≤ (removeOutliers cfg prices).length →
      (getAggregatedPrice cfg T cache now prices).res =
        Except.ok (calculateAggregatedPrice T (removeOutliers cfg prices) now false) ∧
      (calculateAggregatedPrice T (removeOutliers cfg prices) now false).cache_hit = false ∧
      (getAggregatedPrice cfg T cache now prices).cache =
        some (calculateAggregatedPrice T (removeOutliers cfg prices) now false,
          now + cfg.cacheTTL)) ∧
    (now2 ≤ expiry →
      (getAggregatedPrice cfg T2 (some (r, expiry)) now2 prices2).res =
        Except.ok { r with cache_hit := true } ∧
      ({ r with cache_hit := true } : AggregatedPrice).price_usd = r.price_usd ∧
      ({ r with cache_hit := true } : AggregatedPrice).source_prices = r.source_prices ∧
      ({ r with cache_hit := true } : AggregatedPrice).cache_hit = true ∧
      (getAggregatedPrice cfg T2 (some (r, expiry)) now2 prices2).cache = some (r, expiry)) ∧
    (cfg.minSourcesRequired ≤ prices.length →
      (removeOutliers cfg prices).length < cfg.minSourcesRequired →
      (getAggregatedPrice cfg T cache now prices).res =
        Except.ok (calculateAggregatedPrice T prices now false) ∧
      (calculateAggregatedPrice T prices now false).cache_hit = false ∧
      (getAggregatedPrice cfg T cache now prices).cache = cache) := by
  refine ⟨?_, ?_, ?_⟩
  · intro hQ hF
    have hlt : ¬ prices.length < cfg.minSourcesRequired := not_lt.mpr hQ
    have hF' : ¬ (removeOutliers cfg prices).length < cfg.minSourcesRequired := not_lt.mpr hF
    refine ⟨?_, rfl, ?_⟩ <;> simp [getAggregatedPrice, hmiss, hlt, hF']
  · intro h2
    have hhit : cacheGet (some (r, expiry)) now2 = some r := by
      simp [cacheGet, h2]
    exact ⟨by simp [getAggregatedPrice, hhit], rfl, rfl, rfl,
      by simp [getAggregatedPrice, hhit]⟩
  · intro hQ hF
    have hlt : ¬ prices.length < cfg.minSourcesRequired := not_lt.mpr hQ
    exact ⟨by simp [getAggregatedPrice, hmiss, hlt, hF], rfl,
      by simp [getAggregatedPrice, hmiss, hlt, hF]⟩

/-- Witness for the amended C1: a fresh call on `goodPrices` stores its
result, and a second call within the TTL returns that stored result with
cache_hit = true. -/
theorem C1_caching_witness :
    (getAggregatedPrice cfg0 3 none 0 goodPrices).res =
      Except.ok (calculateAggregatedPrice 3 (removeOutliers cfg0 goodPrices) 0 false) ∧
    (getAggregatedPrice cfg0 3 none 0 goodPrices).cache =
      some (calculateAggregatedPrice 3 (removeOutliers cfg0 goodPrices) 0 false,
        0 + cfg0.cacheTTL) ∧
    (getAggregatedPrice cfg0 3
        (some (calculateAggregatedPrice 3 (removeOutliers cfg0 goodPrices) 0 false,
          0 + cfg0.cacheTTL)) 10 []).res =
      Except.ok
        { calculateAggregatedPrice 3 (removeOutliers cfg0 goodPrices) 0 false with
          cache_hit := true } := by
  have hF : cfg0.minSourcesRequired ≤ (removeOutliers cfg0 goodPrices).length := by
    norm_num [removeOutliers, goodPrices, medianPrice, sortByPrice, List.insertionSort,
      List.orderedInsert, priceLE, cfg0, List.filter_cons, decide_eq_true_eq, abs_le]
  have h := C1_caching cfg0 3 3 none 0 10 (0 + cfg0.cacheTTL) goodPrices []
    (calculateAggregatedPrice 3 (removeOutliers cfg0 goodPrices) 0 false) rfl
  exact ⟨(h.1 (by decide) hF).1, (h.1 (by decide) hF).2.2,
    (h.2.1 (by norm_num [cfg0])).1⟩

lemma confidence_bounds_aux (r : ℚ) (cvr : ℝ) (hr0 : 0 ≤ r) (hr1 : r ≤ 1) (hcv : 0 ≤ cvr) :
    0 ≤ (r : ℝ) * 0.6 + max 0 (1 - cvr * 10) * 0.4 ∧
    (r : ℝ) * 0.6 + max 0 (1 - cvr * 10) * 0.4 ≤ 1 := by
  have h0 : (0:ℝ) ≤ (r:ℝ) := by exact_mod_cast hr0
  have h1 : (r:ℝ) ≤ 1 := by exact_mod_cast hr1
  have hc0 : (0:ℝ) ≤ max 0 (1 - cvr * 10) := le_max_left _ _
  have hc1 : max 0 (1 - cvr * 10) ≤ 1 := max_le zero_le_one (by nlinarith)
  constructor <;> nlinarith

/-- C5: the confidence score of a computed result equals
min(n/T, 1) * 0.6 + max(0, 1 - (stdDev/mean) * 10) * 0.4, where mean and
stdDev are the mean and population standard deviation of the used prices,
and the coefficient of variation stdDev/mean is 0 when the mean is 0. -/
theorem C5_confidence_formula (T : ℕ) (prices : List PriceData) (now : ℚ) (cacheHit : Bool)
    (hne : prices ≠ []) :
    (calculateAggregatedPrice T prices now cacheHit).confidence_score =
      min ((prices.length : ℝ) / (T : ℝ)) 1 * 0.6 +
        max 0 (1 - specPopStdDev prices / (specMean prices : ℝ) * 10) * 0.4 ∧
    (specMean prices = 0 → specPopStdDev prices / (specMean prices : ℝ) = 0) := by
  constructor
  · have hmean : (List.foldl (fun s p => s + p.price) 0 prices) / (prices.length : ℚ) =
        specMean prices := by
      rw [specMean]
      congr 1
      simpa using foldl_add_map PriceData.price prices 0
    have hvar : (List.foldl (fun s p => s + (p.price - specMean prices) ^ 2) 0 prices) =
        (prices.map (fun p => (p.price - specMean prices) ^ 2)).sum := by
      simpa using foldl_add_map (fun p => (p.price - specMean prices) ^ 2) prices 0
    have hratio : ((min ((prices.length : ℚ) / (T : ℚ)) 1 : ℚ) : ℝ) =
        min ((prices.length : ℝ) / (T : ℝ)) 1 := by
      rw [Rat.cast_min]
      push_cast
      ring_nf
    simp only [calculateAggregatedPrice, hmean, hvar]
    rw [hratio]
    rfl
  · intro h
    rw [h]
    simp

/-- Witness for C5 at three identical quotes. -/
theorem C5_confidence_formula_witness :
    threeSame ≠ [] ∧
    (calculateAggregatedPrice 3 threeSame 0 false).confidence_score =
      min ((threeSame.length : ℝ) / (3 : ℝ)) 1 * 0.6 +
        max 0 (1 - specPopStdDev threeSame / (specMean threeSame : ℝ) * 10) * 0.4 :=
  ⟨List.cons_ne_nil _ _,
   (C5_confidence_formula 3 threeSame 0 false (List.cons_ne_nil _ _)).1⟩

/-- C6: for every non-empty quote list with positive prices and no more
quotes than registered sources, the confidence score of the computed result
lies in the closed interval [0, 1]. -/
theorem C6_confidence_bounds (T : ℕ) (prices : List PriceData) (now : ℚ) (cacheHit : Bool)
    (hne : prices ≠ []) (hpos : ∀ p ∈ prices, 0 < p.price) (hT : prices.length ≤ T) :
    0 ≤ (calculateAggregatedPrice T prices now cacheHit).confidence_score ∧
    (calculateAggregatedPrice T prices now cacheHit).confidence_score ≤ 1 := by
  have hsum : List.foldl (fun s p => s + p.price) 0 prices =
      (prices.map PriceData.price).sum := by
    simpa using foldl_add_map PriceData.price prices 0
  have hmean0 : (0:ℚ) ≤ (List.foldl (fun s p => s + p.price) 0 prices) / (prices.length : ℚ) := by
    rw [hsum]
    apply div_nonneg _ (by positivity)
    apply List.sum_nonneg
    intro x hx
    rcases List.mem_map.mp hx with ⟨p, hp, rfl⟩
    exact le_of_lt (hpos p hp)
  have hr0 : (0:ℚ) ≤ min ((prices.length : ℚ) / (T : ℚ)) 1 :=
    le_min (div_nonneg (by positivity) (by positivity)) zero_le_one
  have hr1 : min ((prices.length : ℚ) / (T : ℚ)) 1 ≤ 1 := min_le_right _ _
  simp only [calculateAggregatedPrice]
  refine confidence_bounds_aux _ _ hr0 hr1 ?_
  exact div_nonneg (Real.sqrt_nonneg _) (by exact_mod_cast hmean0)

/-- Witness for C6 at three identical quotes out of three sources. -/
theorem C6_confidence_bounds_witness :
    0 ≤ (calculateAggregatedPrice 3 threeSame 0 false).confidence_score ∧
    (calculateAggregatedPrice 3 threeSame 0 false).confidence_score ≤ 1 :=
  C6_confidence_bounds 3 threeSame 0 false (List.cons_ne_nil _ _)
    (by
      intro p hp
      simp only [threeSame, List.mem_cons, List.not_mem_nil, or_false] at hp
      rcases hp with rfl | rfl | rfl <;> exact (by norm_num : (0:ℚ) < 2))
    (by decide)

end Oracle
